import Mathlib

/-!
Verification of the fuel-price cleaning pipeline (`ass1-5339.py`).

The script downloads tabular fuel-price data, cleans it (date truncation,
deduplication, suburb/state text normalization, address decomposition),
audits it (missing values, invalid prices, invalid postcodes) and saves a
merged, re-deduplicated, date-sorted table.

This file shallowly embeds the data model and the cleaning/audit operations:
a pandas DataFrame becomes a `Table` (a header of column names plus a list of
rows, each row an association list from column name to `Value`), and each
Python function becomes a Lean function of the same name.  Library calls
(`re.sub` with the script's fixed patterns, `str.extract`, `drop_duplicates`,
`pd.to_datetime`, `pd.to_numeric`, `sort_values`, `concat`) are embedded by
executable Lean functions whose derivation from the library semantics is
explained at each definition.  Strings are `List Char` (ASCII character
classes model the `\s`/`\w`/`\d` regex classes).
-/

/-! ### Characters and Python-style string helpers -/

/-- Python regex `\s` class: space, tab, newline, carriage return,
vertical tab, form feed (ASCII fragment). -/
def isPySpace (c : Char) : Bool :=
  c == ' ' || c == '\t' || c == '\n' || c == '\r' || c == Char.ofNat 11 || c == Char.ofNat 12

/-- Python regex `\w` class (ASCII fragment): letters, digits, underscore. -/
def isWordChar (c : Char) : Bool :=
  c.isAlphanum || c == '_'

/-- Case-insensitive character comparison (ASCII case folding), modelling
`re.IGNORECASE` and pandas `case=False`. -/
def charEqCI (a b : Char) : Bool :=
  a.toLower == b.toLower

/-- `startsWithCI pat s`: `s` starts with `pat`, case-insensitively. -/
def startsWithCI : List Char → List Char → Bool
  | [], _ => true
  | _ :: _, [] => false
  | p :: ps, c :: cs => charEqCI p c && startsWithCI ps cs

/-- `endsWithCI pat s`: `s` ends with `pat`, case-insensitively. -/
def endsWithCI (pat s : List Char) : Bool :=
  startsWithCI pat.reverse s.reverse

/-- Remove trailing whitespace (the right half of Python `str.strip`). -/
def stripTrailing (s : List Char) : List Char :=
  (s.reverse.dropWhile isPySpace).reverse

/-- Remove leading whitespace (the left half of Python `str.strip`). -/
def stripLeading (s : List Char) : List Char :=
  s.dropWhile isPySpace

/-- Python `str.strip()`: remove leading and trailing whitespace. -/
def pyStrip (s : List Char) : List Char :=
  stripLeading (stripTrailing s)

/-- The last `n` characters of `l`. -/
def lastN (n : Nat) (l : List Char) : List Char :=
  l.drop (l.length - n)

/-- Fuel-driven worker for `replaceCI`; each step consumes at least one
character of the input, so fuel `s.length` is enough. -/
def replaceCIFuel (pat repl : List Char) : Nat → List Char → List Char
  | _, [] => []
  | 0, s => s
  | n + 1, c :: cs =>
    if !pat.isEmpty && startsWithCI pat (c :: cs) then
      repl ++ replaceCIFuel pat repl n (cs.drop (pat.length - 1))
    else
      c :: replaceCIFuel pat repl n cs

/-- Case-insensitive replacement of every non-overlapping occurrence of
`pat` by `repl`, scanning left to right: the semantics of
`Series.str.replace(pat, repl, case=False)` on a plain-text pattern
(equivalently `re.sub` on the escaped pattern with `re.IGNORECASE`).
An empty pattern is never used by the script and is treated as no match. -/
def replaceCI (pat repl s : List Char) : List Char :=
  replaceCIFuel pat repl s.length s

/-- Python `str.title()` (ASCII fragment): the first alphabetic character of
each maximal alphabetic run is uppercased, the rest are lowercased,
non-alphabetic characters are kept. -/
def titleAux : Bool → List Char → List Char
  | _, [] => []
  | prevAlpha, c :: cs =>
    (if c.isAlpha then (if prevAlpha then c.toLower else c.toUpper) else c)
      :: titleAux c.isAlpha cs

/-- Python `str.title()` on a whole string. -/
def titleCase (s : List Char) : List Char :=
  titleAux false s

/-! ### Dates, cell values, rows, tables -/

/-- A calendar date (the value of a pandas `Timestamp.date()`). -/
structure Date where
  y : Nat
  m : Nat
  d : Nat
deriving DecidableEq, Repr

/-- A parsed date-time: calendar date plus time of day. -/
structure DateTime where
  date : Date
  hh : Nat
  mi : Nat
  ss : Nat
deriving DecidableEq, Repr

/-- A cell value of a DataFrame as used by the script: a string, an integer,
a calendar date, or the null/missing marker (`NaN`/`NaT`/`None`). -/
inductive Value where
  | vstr : List Char → Value
  | vint : Int → Value
  | vdate : Date → Value
  | vnull : Value
deriving DecidableEq, Repr

/-- A row: an association list from column name to cell value, in the
table's column order. -/
abbrev Row := List (String × Value)

/-- A table (DataFrame): column names plus rows. -/
structure Table where
  header : List String
  rows : List Row
deriving DecidableEq, Repr

/-- `row[name]`: the cell of `r` in column `name` (null if absent). -/
def getCell : Row → String → Value
  | [], _ => Value.vnull
  | (k, v) :: rest, name => if k = name then v else getCell rest name

/-- `df[name] = df[name].map f` restricted to one row: apply `f` to the
cells keyed `name`, keep the rest. -/
def updateCell (name : String) (f : Value → Value) (r : Row) : Row :=
  r.map (fun p => if p.1 = name then (p.1, f p.2) else p)

/-- `row[name] = v`: overwrite the cell if the key is present, else append
a new column cell at the end (pandas column creation). -/
def setCell (name : String) (v : Value) (r : Row) : Row :=
  if r.any (fun p => p.1 == name) then updateCell name (fun _ => v) r
  else r ++ [(name, v)]

/-- Decimal digits to the number they denote. -/
def digitsToNat (s : List Char) : Nat :=
  s.foldl (fun acc c => acc * 10 + (c.toNat - 48)) 0

/-- Two-digit decimal rendering (for dates). -/
def pad2 (n : Nat) : List Char :=
  if n < 10 then '0' :: (toString n).data else (toString n).data

/-- Python `str()` of a cell, as produced by `astype(str)` / f-string
interpolation: strings unchanged, integers in decimal, dates as
`YYYY-MM-DD`, and the float `NaN` missing marker prints as `nan`. -/
def toPyStr : Value → List Char
  | .vstr s => s
  | .vint n => (toString n).data
  | .vdate d => (toString d.y).data ++ '-' :: pad2 d.m ++ '-' :: pad2 d.d
  | .vnull => ['n', 'a', 'n']

/-! ### Date-time parsing (`pd.to_datetime(..., errors='coerce')`)

The script's date cells arrive as text in ISO form `YYYY-MM-DD` with an
optional ` HH:MM:SS` time.  The parser below embeds that fragment of
`pd.to_datetime`: it succeeds exactly on well-formed in-range inputs and
returns `none` (the `errors='coerce'` null result) otherwise. -/

/-- The numeric value of a decimal digit, if `c` is one. -/
def readDigit (c : Char) : Option Nat :=
  if c.isDigit then some (c.toNat - 48) else none

/-- Read exactly two decimal digits off the front of the input. -/
def read2 : List Char → Option (Nat × List Char)
  | a :: b :: rest =>
    match readDigit a, readDigit b with
    | some x, some y => some (x * 10 + y, rest)
    | _, _ => none
  | _ => none

/-- Read exactly four decimal digits off the front of the input. -/
def read4 (s : List Char) : Option (Nat × List Char) :=
  match read2 s with
  | some (hi, r) =>
    match read2 r with
    | some (lo, r2) => some (hi * 100 + lo, r2)
    | none => none
  | none => none

/-- Require the character `c` at the front of the input. -/
def expectChar (c : Char) : List Char → Option (List Char)
  | d :: rest => if d = c then some rest else none
  | [] => none

/-- Read a `HH:MM:SS` time and require the input to end there. -/
def readTime (s : List Char) : Option (Nat × Nat × Nat) :=
  match read2 s with
  | none => none
  | some (hh, r1) =>
  match expectChar ':' r1 with
  | none => none
  | some r2 =>
  match read2 r2 with
  | none => none
  | some (mi, r3) =>
  match expectChar ':' r3 with
  | none => none
  | some r4 =>
  match read2 r4 with
  | none => none
  | some (ss, r5) =>
  if r5.isEmpty && decide (hh ≤ 23) && decide (mi ≤ 59) && decide (ss ≤ 59) then
    some (hh, mi, ss)
  else none

/-- Parse `YYYY-MM-DD` optionally followed by ` HH:MM:SS`. -/
def parse_date_chars (s : List Char) : Option DateTime :=
  match read4 s with
  | none => none
  | some (y, r1) =>
  match expectChar '-' r1 with
  | none => none
  | some r2 =>
  match read2 r2 with
  | none => none
  | some (m, r3) =>
  match expectChar '-' r3 with
  | none => none
  | some r4 =>
  match read2 r4 with
  | none => none
  | some (d, r5) =>
  if !(decide (1 ≤ m) && decide (m ≤ 12) && decide (1 ≤ d) && decide (d ≤ 31)) then none
  else
  match r5 with
  | [] => some ⟨⟨y, m, d⟩, 0, 0, 0⟩
  | ' ' :: r6 =>
    match readTime r6 with
    | some (hh, mi, ss) => some ⟨⟨y, m, d⟩, hh, mi, ss⟩
    | none => none
  | _ => none

/-- `pd.to_datetime(cell, errors='coerce')`: parse a string cell, pass a
date cell through (at midnight), and coerce everything else — including
the null marker and values the embedded parser rejects — to `NaT`
(`none`).  Never raises: the function is total. -/
def pd_to_datetime : Value → Option DateTime
  | .vstr s => parse_date_chars s
  | .vdate d => some ⟨d, 0, 0, 0⟩
  | _ => none

/-- One cell of `pd.to_datetime(col, errors='coerce').dt.date`: the parsed
value truncated to its calendar date, or null on parse failure. -/
def coerceDate (v : Value) : Value :=
  match pd_to_datetime v with
  | some dt => .vdate dt.date
  | none => .vnull

/-! ### Numeric coercion (`pd.to_numeric(..., errors='coerce')`)

The model covers the integer fragment exercised by the data: optional
surrounding whitespace, an optional minus sign, then decimal digits;
every other string (and every non-numeric cell) coerces to null. -/

/-- Parse an optionally signed decimal integer, whitespace-tolerant. -/
def parseIntChars (s : List Char) : Option Int :=
  match pyStrip s with
  | '-' :: ds =>
    if !ds.isEmpty && ds.all Char.isDigit then some (-(digitsToNat ds : Int)) else none
  | ds =>
    if !ds.isEmpty && ds.all Char.isDigit then some ((digitsToNat ds : Int)) else none

/-- `pd.to_numeric(cell, errors='coerce')` on one cell. -/
def pd_to_numeric : Value → Value
  | .vint n => .vint n
  | .vstr s =>
    match parseIntChars s with
    | some n => .vint n
    | none => .vnull
  | _ => .vnull

/-! ### `clean_datetime_fields` (source lines 19–23) -/

/-- `clean_datetime_fields(df, fields)`: for each listed field, if the
column exists, replace it by its parsed-and-truncated dates; fields not
in the table are skipped.  Total — no parse failure raises. -/
def clean_datetime_fields (t : Table) : List String → Table
  | [] => t
  | f :: fs =>
    clean_datetime_fields
      (if f ∈ t.header then { t with rows := t.rows.map (updateCell f coerceDate) } else t)
      fs

/-! ### `remove_duplicates` (source lines 26–31) -/

/-- Worker for `DataFrame.drop_duplicates()`: keep each row not already
seen, first occurrences first. -/
def dedupSeen {α : Type} [DecidableEq α] (seen : List α) : List α → List α
  | [] => []
  | a :: as => if a ∈ seen then dedupSeen seen as else a :: dedupSeen (a :: seen) as

/-- `drop_duplicates()` keeping the first occurrence of each distinct
element, in original order (also the semantics of `Series.unique()`). -/
def dedupFirst {α : Type} [DecidableEq α] (l : List α) : List α :=
  dedupSeen [] l

/-- `remove_duplicates(df)`: drop exact duplicate rows (case: every field
equal, nulls equal) and report how many were removed. -/
def remove_duplicates (t : Table) : Table × Nat :=
  let rows' := dedupFirst t.rows
  ({ t with rows := rows' }, t.rows.length - rows'.length)

/-! ### `check_missing_values` (source lines 35–62) -/

/-- Number of null cells of column `c`. -/
def countNulls (rows : List Row) (c : String) : Nat :=
  rows.countP (fun r => getCell r c == Value.vnull)

/-- `check_missing_values(df)`: report, per column with at least one null
cell, the null count, sorted by descending share.  The function only
reads the DataFrame; the returned table is the unchanged input. -/
def check_missing_values (t : Table) : Table × List (String × Nat) :=
  let raw := (t.header.map (fun c => (c, countNulls t.rows c))).filter (fun p => decide (0 < p.2))
  (t, List.insertionSort (fun a b : String × Nat => b.2 ≤ a.2) raw)

/-! ### `check_invalid_values` (source lines 65–98) -/

/-- A price cell counted invalid by the audit: null (after coercion) or
negative. -/
def priceInvalid : Value → Bool
  | .vnull => true
  | .vint n => decide (n < 0)
  | _ => true

/-- `check_invalid_values(df)`: when a `Price` column exists, first
**overwrite it in place** with `pd.to_numeric(df['Price'],
errors='coerce')` (source line 72), then count the invalid (null or
negative) cells.  Returns the post-call table and the invalid count; the
printed percentage/min/max are display-only and not modelled. -/
def check_invalid_values (t : Table) : Table × Nat :=
  if "Price" ∈ t.header then
    let t' := { t with rows := t.rows.map (updateCell "Price" pd_to_numeric) }
    (t', t'.rows.countP (fun r => priceInvalid (getCell r "Price")))
  else (t, 0)

/-! ### `check_invalidate_postcodes` (source lines 101–121) -/

/-- `^\d{4}$` on the string form: exactly four (ASCII) digits. -/
def isValidPostcode (s : List Char) : Bool :=
  s.length == 4 && s.all Char.isDigit

/-- One postcode cell after the audit: `astype(str)` first, then valid
cells become their integer value and invalid cells stay as the string. -/
def normalizePostcode (v : Value) : Value :=
  let s := toPyStr v
  if isValidPostcode s then .vint ((digitsToNat s : Nat) : Int) else .vstr s

/-- `check_invalidate_postcodes(df)`: when a `Postcode` column exists,
convert it to strings (`astype(str)`), list the distinct invalid values
(`.unique()`, first occurrences first), and convert the valid cells to
integers in place (both branches of the source do this conversion).
Returns the post-call table and the distinct invalid values. -/
def check_invalidate_postcodes (t : Table) : Table × List (List Char) :=
  if "Postcode" ∈ t.header then
    let strs := t.rows.map (fun r => toPyStr (getCell r "Postcode"))
    let invalids := dedupFirst (strs.filter (fun s => !isValidPostcode s))
    ({ t with rows := t.rows.map (updateCell "Postcode" normalizePostcode) }, invalids)
  else (t, [])

/-! ### `standardize_suburb_names` (source lines 201–206) -/

/-- One suburb cell: `x.title() if pd.notna(x) else x`.  A non-null
non-string cell has no `.title` attribute, so the `apply` raises — an
`Except.error` in the model. -/
def titleSuburbCell : Value → Except String Value
  | .vstr s => .ok (.vstr (titleCase s))
  | .vnull => .ok .vnull
  | _ => .error "AttributeError: object has no attribute title"

/-- Error-propagating map (the all-or-nothing semantics of
`Series.apply`: if any row raises, no assignment happens). -/
def mapE {α β : Type} (f : α → Except String β) : List α → Except String (List β)
  | [] => .ok []
  | a :: as =>
    match f a with
    | .error e => .error e
    | .ok b =>
      match mapE f as with
      | .error e => .error e
      | .ok bs => .ok (b :: bs)

/-- Title-case the suburb cell of one row. -/
def titleSuburbRow (r : Row) : Except String Row :=
  match titleSuburbCell (getCell r "Suburb") with
  | .ok v => .ok (updateCell "Suburb" (fun _ => v) r)
  | .error e => .error e

/-- `standardize_suburb_names(df)`: title-case every non-null suburb when
the column exists; otherwise return the table unchanged. -/
def standardize_suburb_names (t : Table) : Except String Table :=
  if "Suburb" ∈ t.header then
    match mapE titleSuburbRow t.rows with
    | .ok rs => .ok { t with rows := rs }
    | .error e => .error e
  else .ok t

/-! ### `standardize_address_state` (source lines 209–214) -/

/-- One address cell of `Series.str.replace('NEW SOUTH WALES', 'NSW',
case=False)`: strings are rewritten, nulls pass through, and (as for all
pandas `.str` methods) non-string non-null cells come out null. -/
def replNSWCell : Value → Value
  | .vstr s => .vstr (replaceCI "NEW SOUTH WALES".data "NSW".data s)
  | .vnull => .vnull
  | _ => .vnull

/-- `standardize_address_state(df)`: case-insensitively replace
`NEW SOUTH WALES` by `NSW` in the `Address` column when it exists. -/
def standardize_address_state (t : Table) : Table :=
  if "Address" ∈ t.header then
    { t with rows := t.rows.map (updateCell "Address" replNSWCell) }
  else t

/-! ### `clean_address` (source lines 217–238)

Each step is one fixed regex on the (already built) address string; the
definitions below spell out those regexes' matching on our ASCII model.

* Line 220, `re.sub(r'\s+' + str(pc) + r'\s*$', '', a, IGNORECASE)`:
  a match needs the trailing-whitespace-stripped address to end in the
  postcode text with at least one whitespace character immediately before
  it; the leftmost match then starts at the beginning of that whitespace
  run and extends to the end, so the substitution keeps exactly the part
  before the run.  (The postcode text is pasted into the pattern verbatim;
  for the digit strings and `nan` it can be here it is a literal.)
* Line 223, `str.replace(r'\s*,\s*$', '')`: a match needs the last
  non-whitespace character to be a comma; it removes that comma, the
  whitespace before it and the trailing whitespace.
* Line 227, `str.extract(r'(\w{3})\s*$')`: a match needs the stripped
  address to end in three word characters; those three are captured.
* Lines 230–231, `str.replace(r'\s+\w{3}\s*$', '')` then `strip()`:
  as for the extract, but the three word characters must additionally be
  preceded by whitespace; the suffix and the whitespace run are removed.
* Lines 234–235, `re.sub(r'\s*,?\s*' + re.escape(str(sub)) + r'\s*$', '',
  a, IGNORECASE)` then `strip()`: a match needs the stripped address to
  end in the suburb text (case-insensitively, possibly the empty prefix
  match); it also removes an optional comma and whitespace before it.
-/

/-- Line 220: strip the trailing postcode (with the preceding whitespace
run) off the address; no match leaves the input untouched. -/
def drop_postcode (pc s : List Char) : List Char :=
  let t := stripTrailing s
  if !pc.isEmpty && endsWithCI pc t then
    let u := t.take (t.length - pc.length)
    match u.getLast? with
    | some c => if isPySpace c then stripTrailing u else s
    | none => s
  else s

/-- Line 223: strip one trailing comma and the whitespace around it. -/
def drop_comma (s : List Char) : List Char :=
  let t := stripTrailing s
  if t.getLast? = some ',' then stripTrailing t.dropLast else s

/-- Line 227: the captured `(\w{3})\s*$` group — the last three characters
of the stripped address when all three are word characters. -/
def extract_state (s : List Char) : Option (List Char) :=
  let t := stripTrailing s
  if decide (3 ≤ t.length) && (lastN 3 t).all isWordChar then some (lastN 3 t) else none

/-- Line 230: remove `\s+\w{3}\s*$` — the three trailing word characters
together with the whitespace run before them, when both are present. -/
def remove_state (s : List Char) : List Char :=
  let t := stripTrailing s
  if decide (4 ≤ t.length) && (lastN 3 t).all isWordChar
      && isPySpace (t.getD (t.length - 4) ' ') then
    stripTrailing (t.take (t.length - 3))
  else s

/-- Line 234: strip the trailing suburb text (case-insensitively), plus an
optional comma and surrounding whitespace before it. -/
def drop_suburb (sub s : List Char) : List Char :=
  let t := stripTrailing s
  if endsWithCI sub t then
    let u := stripTrailing (t.take (t.length - sub.length))
    match u.getLast? with
    | some c => if c = ',' then stripTrailing u.dropLast else u
    | none => u
  else s

/-- The whole per-row address decomposition, lines 220–235 in source
order.  `re.sub` requires a string: a null (or otherwise non-string)
`Address` cell raises `TypeError`, an error here.  The `State` column is
set from the extraction made *before* state removal and suburb removal. -/
def cleanRow (r : Row) : Except String Row :=
  match getCell r "Address" with
  | .vstr a =>
    let pc := toPyStr (getCell r "Postcode")
    let sub := toPyStr (getCell r "Suburb")
    let a1 := drop_postcode pc a
    let a2 := drop_comma a1
    let a3 := pyStrip a2
    let st := extract_state a3
    let a4 := remove_state a3
    let a5 := pyStrip a4
    let a6 := drop_suburb sub a5
    let a7 := pyStrip a6
    .ok (setCell "State"
          (match st with | some tk => .vstr tk | none => .vnull)
          (updateCell "Address" (fun _ => .vstr a7) r))
  | _ => .error "TypeError: expected string or bytes-like object"

/-- `clean_address(df)`: decompose every address when the three columns
`Address`, `Postcode`, `Suburb` all exist (adding a `State` column),
otherwise return the table unchanged.  The error case models the
`TypeError` raised by line 220 on a non-string address cell. -/
def clean_address (t : Table) : Except String Table :=
  if "Address" ∈ t.header ∧ "Postcode" ∈ t.header ∧ "Suburb" ∈ t.header then
    match mapE cleanRow t.rows with
    | .ok rs =>
      .ok { header := if "State" ∈ t.header then t.header else t.header ++ ["State"],
            rows := rs }
    | .error e => .error e
  else .ok t

/-! ### Merging, sorting, saving (`save_to_csv`, source lines 163–198) -/

/-- The column union of several tables, in order of first appearance
(`pd.concat` column alignment). -/
def unionHeaders (ts : List Table) : List String :=
  ts.foldl (fun acc t => acc ++ t.header.filter (fun c => decide (c ∉ acc))) []

/-- Rebuild a row on the union header, nulls for the columns the row's
table did not have (`pd.concat` NaN fill). -/
def alignRow (h : List String) (r : Row) : Row :=
  h.map (fun c => (c, getCell r c))

/-- `pd.concat(dataframes, ignore_index=True)`: row-wise concatenation on
the column union. -/
def pd_concat (ts : List Table) : Table :=
  let h := unionHeaders ts
  { header := h, rows := (ts.map (fun t => t.rows.map (alignRow h))).flatten }

/-- Lexicographic order on dates. -/
def dateLeB (a b : Date) : Bool :=
  decide (a.y < b.y ∨ (a.y = b.y ∧ (a.m < b.m ∨ (a.m = b.m ∧ a.d ≤ b.d))))

/-- Ascending order on optional dates with nulls last (`sort_values`
ascending default with `na_position='last'`). -/
def optDateLe : Option Date → Option Date → Bool
  | some a, some b => dateLeB a b
  | some _, none => true
  | none, some _ => false
  | none, none => true

/-- The sort key of a cell: its date, if it is one. -/
def dateKey : Value → Option Date
  | .vdate d => some d
  | _ => none

/-- The sort key of a row: the date in its `PriceUpdatedDate` cell. -/
def rowKey (r : Row) : Option Date :=
  dateKey (getCell r "PriceUpdatedDate")

/-- Row comparison used by `sort_values('PriceUpdatedDate')`. -/
def rowDateLe (a b : Row) : Prop :=
  optDateLe (rowKey a) (rowKey b) = true

instance : DecidableRel rowDateLe :=
  fun a b => instDecidableEqBool (optDateLe (rowKey a) (rowKey b)) true

/-- One executable realization of `df.sort_values('PriceUpdatedDate')`:
rows ascending by the date key, nulls last (`na_position='last'`), here
by insertion sort.  The script calls `sort_values` with the default
`kind='quicksort'`, whose contract guarantees only *some* ascending
permutation — not stability — so no theorem relies on the equal-key
order this realization happens to produce; the guaranteed behaviour is
captured by `sort_values_contract`. -/
def sort_by_date (t : Table) : Table :=
  { t with rows := List.insertionSort rowDateLe t.rows }

/-- What `sort_values('PriceUpdatedDate')` with the default
`kind='quicksort'` guarantees about its output rows: an ascending (nulls
last) permutation of the input rows.  Stability is deliberately absent:
pandas documents only `mergesort`/`stable` as stable kinds, so on equal
keys the library may produce any of the permutations admitted here. -/
def sort_values_contract (rows rows' : List Row) : Prop :=
  rows'.Perm rows ∧ List.Sorted rowDateLe rows'

/-- Source lines 170–180: the merged result handed on to the audits —
concatenate all tables, remove duplicate rows again, and sort by
`PriceUpdatedDate` when that column exists. -/
def merged_result (ts : List Table) : Table :=
  let d := (remove_duplicates (pd_concat ts)).1
  if "PriceUpdatedDate" ∈ d.header then sort_by_date d else d

/-- `save_to_csv(dataframes, ... )` up to the table written to disk:
`None` when there is nothing to save, otherwise the merged result after
the three audits ran over it (the postcode and price audits mutate). -/
def save_to_csv_table (ts : List Table) : Option Table :=
  if ts.isEmpty then none
  else
    let m := merged_result ts
    let m1 := (check_missing_values m).1
    let m2 := (check_invalid_values m1).1
    let m3 := (check_invalidate_postcodes m2).1
    some m3

/-! ### Spec-side comparison definitions

Used only to state refinement/counterexample theorems; these follow the
spec's words, not the code. -/

/-- Split into maximal whitespace-free tokens (worker; `cur` holds the
current token reversed). -/
def wsTokensAux : List Char → List Char → List (List Char)
  | cur, [] => if cur.isEmpty then [] else [cur.reverse]
  | cur, c :: cs =>
    if isPySpace c then
      (if cur.isEmpty then wsTokensAux [] cs else cur.reverse :: wsTokensAux [] cs)
    else wsTokensAux (c :: cur) cs

/-- The whitespace-bounded tokens of a string. -/
def wsTokens (s : List Char) : List (List Char) :=
  wsTokensAux [] s

/-- Modelled from the spec's words (for comparison with the code's
`extract_state`): "the final three-letter token (whitespace-bounded)" of
the address — the last whitespace-bounded token when it consists of
exactly three letters, and nothing otherwise. -/
def spec_finalThreeLetterToken (s : List Char) : Option (List Char) :=
  match (wsTokens s).getLast? with
  | some tk => if tk.length == 3 && tk.all Char.isAlpha then some tk else none
  | none => none

/-- Per-row normal form of `clean_datetime_fields`: coerce exactly the
cells whose column is both listed and present in the header. -/
def rowCoerceDates (fields hdr : List String) (r : Row) : Row :=
  r.map (fun p => if p.1 ∈ fields ∧ p.1 ∈ hdr then (p.1, coerceDate p.2) else p)

/-! ### Concrete example tables -/

/-- The spec's address-decomposition example row (claim C1). -/
def exC1 : Table :=
  { header := ["Address", "Postcode", "Suburb"],
    rows := [[("Address", .vstr "12 Main St NEW SOUTH WALES 2000".data),
              ("Postcode", .vstr "2000".data),
              ("Suburb", .vstr "Sydney".data)]] }

/-- A row whose address ends in a token of more than three letters
(claim C2): the final token is `Street`. -/
def exC2 : Table :=
  { header := ["Address", "Postcode", "Suburb"],
    rows := [[("Address", .vstr "12 Main Street".data),
              ("Postcode", .vstr "9999".data),
              ("Suburb", .vstr "Avalon".data)]] }

/-- Postcode audit example (claim C3): one valid and two invalid cells,
one invalid value repeated. -/
def exC3 : Table :=
  { header := ["Postcode"],
    rows := [[("Postcode", .vstr "2000".data)],
             [("Postcode", .vstr "NSW".data)],
             [("Postcode", .vstr "20000".data)],
             [("Postcode", .vstr "NSW".data)]] }

/-- Price audit example (claim C7): a non-numeric price cell. -/
def exC7 : Table :=
  { header := ["Price"], rows := [[("Price", .vstr "abc".data)]] }

/-- A table with all three address columns but a null `Address` cell
(claim C9): line 220's `re.sub` raises on it. -/
def exC9 : Table :=
  { header := ["Address", "Postcode", "Suburb"],
    rows := [[("Address", .vnull),
              ("Postcode", .vstr "2000".data),
              ("Suburb", .vstr "Sydney".data)]] }

/-- Merge/sort example rows (claim C8), dates deliberately out of order. -/
def mrow (p : Int) (d : Date) : Row :=
  [("Price", .vint p), ("PriceUpdatedDate", .vdate d)]

/-- First merge input: two rows, dated 2024-05-03 and 2024-05-01. -/
def sortT1 : Table :=
  { header := ["Price", "PriceUpdatedDate"],
    rows := [mrow 10 ⟨2024, 5, 3⟩, mrow 20 ⟨2024, 5, 1⟩] }

/-- Second merge input: shares the 2024-05-01 row with `sortT1` and adds
a 2024-05-02 row. -/
def sortT2 : Table :=
  { header := ["Price", "PriceUpdatedDate"],
    rows := [mrow 20 ⟨2024, 5, 1⟩, mrow 30 ⟨2024, 5, 2⟩] }

/-- Two distinct rows sharing one `PriceUpdatedDate` key (claim C8):
equal sort keys, different prices. -/
def eqRowA : Row := [("Price", .vint 1), ("PriceUpdatedDate", .vdate ⟨2024, 5, 1⟩)]

/-- The second equal-key row for claim C8. -/
def eqRowB : Row := [("Price", .vint 2), ("PriceUpdatedDate", .vdate ⟨2024, 5, 1⟩)]

/-- A deduplicated table with two equal-key rows (claim C8): any stable
sort must keep `eqRowA` before `eqRowB`. -/
def exC8eq : Table := ⟨["Price", "PriceUpdatedDate"], [eqRowA, eqRowB]⟩

/-- A small fully-string table used to instantiate frame theorems
(claim C10 witness). -/
def exC10 : Table :=
  { header := ["Address", "Postcode", "Suburb", "PriceUpdatedDate"],
    rows := [[("Address", .vstr "4 George St, Sydney NSW 2000".data),
              ("Postcode", .vstr "2000".data),
              ("Suburb", .vstr "sydney".data),
              ("PriceUpdatedDate", .vstr "2024-05-01 13:45:00".data)]] }

/-- Index of the first occurrence of `x` in `l` (length of `l` when
absent); used to state "first occurrence kept, in order". -/
def firstIdx {α : Type} [DecidableEq α] : List α → α → Nat
  | [], _ => 0
  | a :: as, x => if a = x then 0 else firstIdx as x + 1

/-! ### Lemmas about duplicate removal -/

theorem dedupSeen_sublist {α : Type} [DecidableEq α] :
    ∀ (l seen : List α), List.Sublist (dedupSeen seen l) l := by
  intro l
  induction l with
  | nil => intro seen; simp [dedupSeen]
  | cons a as ih =>
    intro seen
    simp only [dedupSeen]
    split
    · exact (ih seen).cons a
    · exact (ih (a :: seen)).cons₂ a

theorem mem_dedupSeen {α : Type} [DecidableEq α] :
    ∀ (l seen : List α) (x : α), x ∈ dedupSeen seen l ↔ x ∈ l ∧ x ∉ seen := by
  intro l
  induction l with
  | nil => intro seen x; simp [dedupSeen]
  | cons a as ih =>
    intro seen x
    simp only [dedupSeen]
    split
    · rename_i ha
      rw [ih]
      constructor
      · rintro ⟨hx, hs⟩; exact ⟨List.mem_cons_of_mem a hx, hs⟩
      · rintro ⟨hx, hs⟩
        rcases List.mem_cons.mp hx with rfl | hx
        · exact absurd ha hs
        · exact ⟨hx, hs⟩
    · rename_i ha
      simp only [List.mem_cons, ih, List.mem_cons, not_or]
      constructor
      · rintro (rfl | ⟨hx, hne, hs⟩)
        · exact ⟨Or.inl rfl, fun h => ha h⟩
        · exact ⟨Or.inr hx, hs⟩
      · rintro ⟨rfl | hx, hs⟩
        · exact Or.inl rfl
        · by_cases hxa : x = a
          · exact Or.inl hxa
          · exact Or.inr ⟨hx, hxa, hs⟩

theorem dedupSeen_nodup {α : Type} [DecidableEq α] :
    ∀ (l seen : List α), (dedupSeen seen l).Nodup := by
  intro l
  induction l with
  | nil => intro seen; simp [dedupSeen]
  | cons a as ih =>
    intro seen
    simp only [dedupSeen]
    split
    · exact ih seen
    · refine List.Nodup.cons ?_ (ih (a :: seen))
      intro hmem
      exact ((mem_dedupSeen as (a :: seen) a).mp hmem).2 (List.mem_cons_self a seen)

theorem dedupSeen_eq_self {α : Type} [DecidableEq α] :
    ∀ (l seen : List α), l.Nodup → (∀ x ∈ l, x ∉ seen) → dedupSeen seen l = l := by
  intro l
  induction l with
  | nil => intro seen _ _; rfl
  | cons a as ih =>
    intro seen hnd hdisj
    simp only [dedupSeen]
    rw [if_neg (hdisj a (List.mem_cons_self a as))]
    congr 1
    refine ih (a :: seen) (List.Nodup.of_cons hnd) ?_
    intro x hx
    simp only [List.mem_cons, not_or]
    exact ⟨fun h => (List.nodup_cons.mp hnd).1 (h ▸ hx), hdisj x (List.mem_cons_of_mem a hx)⟩

theorem dedupSeen_pairwise_firstIdx {α : Type} [DecidableEq α] :
    ∀ (l seen : List α),
      (dedupSeen seen l).Pairwise (fun a b => firstIdx l a < firstIdx l b) := by
  intro l
  induction l with
  | nil => intro seen; simp [dedupSeen]
  | cons c cs ih =>
    intro seen
    simp only [dedupSeen]
    split
    · rename_i hc
      refine ((ih seen).imp_of_mem ?_)
      intro a b ha hb hab
      have ha' := (mem_dedupSeen cs seen a).mp ha
      have hb' := (mem_dedupSeen cs seen b).mp hb
      have hac : ¬ c = a := fun h => ha'.2 (h ▸ hc)
      have hbc : ¬ c = b := fun h => hb'.2 (h ▸ hc)
      simp only [firstIdx, if_neg hac, if_neg hbc]
      exact Nat.succ_lt_succ hab
    · refine List.Pairwise.cons ?_ ?_
      · intro b hb
        have hb' := (mem_dedupSeen cs (c :: seen) b).mp hb
        have hbc : ¬ c = b := fun h => hb'.2 (h ▸ List.mem_cons_self c seen)
        simp only [firstIdx, if_pos rfl, if_neg hbc]
        exact Nat.succ_pos _
      · refine ((ih (c :: seen)).imp_of_mem ?_)
        intro a b ha hb hab
        have ha' := (mem_dedupSeen cs (c :: seen) a).mp ha
        have hb' := (mem_dedupSeen cs (c :: seen) b).mp hb
        have hac : ¬ c = a := fun h => ha'.2 (h ▸ List.mem_cons_self c seen)
        have hbc : ¬ c = b := fun h => hb'.2 (h ▸ List.mem_cons_self c seen)
        simp only [firstIdx, if_neg hac, if_neg hbc]
        exact Nat.succ_lt_succ hab

theorem dedupFirst_sublist {α : Type} [DecidableEq α] (l : List α) :
    List.Sublist (dedupFirst l) l :=
  dedupSeen_sublist l []

theorem mem_dedupFirst {α : Type} [DecidableEq α] (l : List α) (x : α) :
    x ∈ dedupFirst l ↔ x ∈ l := by
  rw [dedupFirst, mem_dedupSeen]
  simp

theorem dedupFirst_nodup {α : Type} [DecidableEq α] (l : List α) : (dedupFirst l).Nodup :=
  dedupSeen_nodup l []

theorem dedupFirst_eq_self {α : Type} [DecidableEq α] (l : List α) (h : l.Nodup) :
    dedupFirst l = l :=
  dedupSeen_eq_self l [] h (by simp)

theorem dedupFirst_idem {α : Type} [DecidableEq α] (l : List α) :
    dedupFirst (dedupFirst l) = dedupFirst l :=
  dedupFirst_eq_self _ (dedupFirst_nodup l)

theorem dedupFirst_pairwise_firstIdx {α : Type} [DecidableEq α] (l : List α) :
    (dedupFirst l).Pairwise (fun a b => firstIdx l a < firstIdx l b) :=
  dedupSeen_pairwise_firstIdx l []

/-! ### Generic cell-access lemmas -/

theorem updateCell_cons (n : String) (f : Value → Value) (k' : String) (v : Value) (r : Row) :
    updateCell n f ((k', v) :: r)
      = (if k' = n then (k', f v) else (k', v)) :: updateCell n f r := by
  by_cases hn : k' = n
  · simp only [updateCell, List.map_cons, hn, if_pos rfl]
  · simp only [updateCell, List.map_cons, if_neg hn]

theorem getCell_cons (k' : String) (v : Value) (r : Row) (k : String) :
    getCell ((k', v) :: r) k = if k' = k then v else getCell r k := by
  rfl

theorem getCell_updateCell_ne (n : String) (f : Value → Value) (r : Row) (k : String)
    (hk : k ≠ n) : getCell (updateCell n f r) k = getCell r k := by
  induction r with
  | nil => rfl
  | cons p rest ih =>
    obtain ⟨k', v⟩ := p
    rw [updateCell_cons]
    by_cases hn : k' = n
    · rw [if_pos hn, getCell_cons, getCell_cons]
      have hkk : ¬ k' = k := fun h => hk (by rw [← h, hn])
      rw [if_neg hkk, if_neg hkk, ih]
    · rw [if_neg hn, getCell_cons, getCell_cons]
      by_cases hkk : k' = k
      · rw [if_pos hkk, if_pos hkk]
      · rw [if_neg hkk, if_neg hkk, ih]

theorem getCell_append_one_ne (r : Row) (n : String) (v : Value) (k : String) (hk : k ≠ n) :
    getCell (r ++ [(n, v)]) k = getCell r k := by
  induction r with
  | nil =>
    have : ¬ n = k := fun h => hk h.symm
    rw [List.nil_append, getCell_cons, if_neg this]
  | cons p rest ih =>
    obtain ⟨k', v'⟩ := p
    rw [List.cons_append, getCell_cons, getCell_cons]
    by_cases hkk : k' = k
    · rw [if_pos hkk, if_pos hkk]
    · rw [if_neg hkk, if_neg hkk, ih]

theorem getCell_setCell_ne (n : String) (v : Value) (r : Row) (k : String) (hk : k ≠ n) :
    getCell (setCell n v r) k = getCell r k := by
  unfold setCell
  split
  · exact getCell_updateCell_ne n _ r k hk
  · exact getCell_append_one_ne r n v k hk

theorem rowCoerceDates_cons (fields hdr : List String) (k' : String) (v : Value) (r : Row) :
    rowCoerceDates fields hdr ((k', v) :: r)
      = (if k' ∈ fields ∧ k' ∈ hdr then (k', coerceDate v) else (k', v))
          :: rowCoerceDates fields hdr r := by
  by_cases hmem : k' ∈ fields ∧ k' ∈ hdr
  · simp only [rowCoerceDates, List.map_cons, if_pos hmem]
  · simp only [rowCoerceDates, List.map_cons, if_neg hmem]

theorem getCell_rowCoerceDates_ne (fields hdr : List String) (r : Row) (k : String)
    (hk : k ∉ fields) : getCell (rowCoerceDates fields hdr r) k = getCell r k := by
  induction r with
  | nil => rfl
  | cons p rest ih =>
    obtain ⟨k', v⟩ := p
    rw [rowCoerceDates_cons]
    by_cases hmem : k' ∈ fields ∧ k' ∈ hdr
    · rw [if_pos hmem, getCell_cons, getCell_cons]
      have hkk : ¬ k' = k := fun h => hk (h ▸ hmem.1)
      rw [if_neg hkk, if_neg hkk, ih]
    · rw [if_neg hmem, getCell_cons, getCell_cons]
      by_cases hkk : k' = k
      · rw [if_pos hkk, if_pos hkk]
      · rw [if_neg hkk, if_neg hkk, ih]

/-! ### Claim theorems -/

/-- Claim C1: for the row with Address `12 Main St NEW SOUTH WALES 2000`,
Postcode `2000`, Suburb `Sydney`, state normalization rewrites the address
to `12 Main St NSW 2000`, and the following address decomposition leaves
Address `12 Main St` and State `NSW`. -/
theorem C1_address_example :
    standardize_address_state exC1
      = { header := ["Address", "Postcode", "Suburb"],
          rows := [[("Address", .vstr "12 Main St NSW 2000".data),
                    ("Postcode", .vstr "2000".data),
                    ("Suburb", .vstr "Sydney".data)]] } ∧
    clean_address (standardize_address_state exC1)
      = Except.ok
          { header := ["Address", "Postcode", "Suburb", "State"],
            rows := [[("Address", .vstr "12 Main St".data),
                      ("Postcode", .vstr "2000".data),
                      ("Suburb", .vstr "Sydney".data),
                      ("State", .vstr "NSW".data)]] } :=
  ⟨by decide, by rfl⟩

/-- Claim C4: `remove_duplicates` returns the deduplicated table (same
header) and the number of removed rows; duplicates are rows equal in every
field (the model's row equality, where nulls are equal); the result keeps
one occurrence of each row of the input and no duplicates, is a stable
subsequence of the input rows, and lists rows in the order of their first
occurrence (strictly increasing first-occurrence indexes). -/
theorem C4_remove_duplicates_spec (t : Table) :
    (remove_duplicates t).1.header = t.header ∧
    (remove_duplicates t).2 = t.rows.length - (remove_duplicates t).1.rows.length ∧
    List.Sublist (remove_duplicates t).1.rows t.rows ∧
    (remove_duplicates t).1.rows.Nodup ∧
    (∀ r : Row, r ∈ (remove_duplicates t).1.rows ↔ r ∈ t.rows) ∧
    (remove_duplicates t).1.rows.Pairwise
      (fun a b => firstIdx t.rows a < firstIdx t.rows b) :=
  ⟨rfl, rfl, dedupFirst_sublist t.rows, dedupFirst_nodup t.rows,
    fun r => mem_dedupFirst t.rows r, dedupFirst_pairwise_firstIdx t.rows⟩

/-- Claim C5: deduplication is idempotent — re-running `remove_duplicates`
on its own output returns that output unchanged and removes zero rows —
and it preserves first-seen row order (stable subsequence, rows ordered
by first occurrence). -/
theorem C5_remove_duplicates_idempotent (t : Table) :
    remove_duplicates ((remove_duplicates t).1) = ((remove_duplicates t).1, 0) ∧
    List.Sublist (remove_duplicates t).1.rows t.rows ∧
    (remove_duplicates t).1.rows.Pairwise
      (fun a b => firstIdx t.rows a < firstIdx t.rows b) := by
  refine ⟨?_, dedupFirst_sublist t.rows, dedupFirst_pairwise_firstIdx t.rows⟩
  simp only [remove_duplicates, dedupFirst_idem, Nat.sub_self]

/-- Claim C3: in the postcode audit a cell is valid iff its string form is
exactly four ASCII digits; valid cells are converted in place to their
integer value, invalid cells stay as their string form, and the report
lists the distinct invalid values; `2000` becomes the integer `2000`
while `NSW` and `20000` stay strings and both appear in the listing. -/
theorem C3_postcode_audit (t : Table) (h : "Postcode" ∈ t.header) :
    (check_invalidate_postcodes t).1.header = t.header ∧
    (check_invalidate_postcodes t).1.rows
      = t.rows.map (updateCell "Postcode" normalizePostcode) ∧
    (check_invalidate_postcodes t).2
      = dedupFirst ((t.rows.map (fun r => toPyStr (getCell r "Postcode"))).filter
          (fun s => !isValidPostcode s)) ∧
    (∀ s : List Char, isValidPostcode s = true ↔ s.length = 4 ∧ ∀ c ∈ s, c.isDigit = true) ∧
    normalizePostcode (.vstr "2000".data) = .vint 2000 ∧
    normalizePostcode (.vstr "NSW".data) = .vstr "NSW".data ∧
    normalizePostcode (.vstr "20000".data) = .vstr "20000".data ∧
    (check_invalidate_postcodes exC3).2 = ["NSW".data, "20000".data] := by
  refine ⟨?_, ?_, ?_, ?_, by decide, by decide, by decide, by decide⟩
  · simp only [check_invalidate_postcodes, if_pos h]
  · simp only [check_invalidate_postcodes, if_pos h]
  · simp only [check_invalidate_postcodes, if_pos h]
  · intro s
    simp [isValidPostcode, List.all_eq_true]

/-- Claim C3 witness: the audit of the concrete four-row postcode table
reports exactly the two distinct invalid values. -/
theorem C3_postcode_audit_witness :
    (check_invalidate_postcodes exC3).2 = ["NSW".data, "20000".data] :=
  (C3_postcode_audit exC3 (by decide)).2.2.2.2.2.2.2

/-- Claim C7 counterexample: the invalid-price audit is not read-only — on
a table whose `Price` cell is the string `abc`, the cell is overwritten
(by `df['Price'] = pd.to_numeric(df['Price'], errors='coerce')`, source
line 72), so the post-call table differs from the input. -/
theorem C7_counterexample : (check_invalid_values exC7).1 ≠ exC7 := by
  decide

/-- Claim C7 (amended): the missing-value audit is read-only; the
invalid-price audit rewrites exactly the `Price` column (each cell by
numeric coercion, non-numeric to null) and leaves every other column and
the header unchanged; without a `Price` column it is read-only too. -/
theorem C7_audit_effects (t : Table) :
    (check_missing_values t).1 = t ∧
    ("Price" ∈ t.header →
      (check_invalid_values t).1.header = t.header ∧
      (check_invalid_values t).1.rows = t.rows.map (updateCell "Price" pd_to_numeric)) ∧
    ("Price" ∉ t.header → (check_invalid_values t).1 = t) ∧
    (∀ (r : Row) (k : String), k ≠ "Price" →
      getCell (updateCell "Price" pd_to_numeric r) k = getCell r k) := by
  refine ⟨rfl, ?_, ?_, ?_⟩
  · intro h
    unfold check_invalid_values
    rw [if_pos h]
    exact ⟨rfl, rfl⟩
  · intro h
    unfold check_invalid_values
    rw [if_neg h]
  · intro r k hk
    exact getCell_updateCell_ne _ _ _ _ hk

/-- Claim C7 witness: the amended theorem applied to the concrete
one-cell `Price` table. -/
theorem C7_audit_effects_witness :
    (check_invalid_values exC7).1.rows
      = exC7.rows.map (updateCell "Price" pd_to_numeric) :=
  ((C7_audit_effects exC7).2.1 (by decide)).2

/-! ### The normal form of `clean_datetime_fields` -/

theorem coerceDate_idem (v : Value) : coerceDate (coerceDate v) = coerceDate v := by
  cases v with
  | vstr s =>
    cases h : parse_date_chars s with
    | none =>
      have hs : coerceDate (Value.vstr s) = Value.vnull := by
        show (match parse_date_chars s with
              | some dt => Value.vdate dt.date
              | none => Value.vnull) = Value.vnull
        rw [h]
      rw [hs]
      rfl
    | some dt =>
      have hs : coerceDate (Value.vstr s) = Value.vdate dt.date := by
        show (match parse_date_chars s with
              | some dt => Value.vdate dt.date
              | none => Value.vnull) = Value.vdate dt.date
        rw [h]
      rw [hs]
      rfl
  | vint n => rfl
  | vdate d => rfl
  | vnull => rfl

theorem rowCoerceDates_nil_fields (hdr : List String) (r : Row) :
    rowCoerceDates [] hdr r = r := by
  unfold rowCoerceDates
  have : ∀ p : String × Value,
      (if p.1 ∈ ([] : List String) ∧ p.1 ∈ hdr then (p.1, coerceDate p.2) else p) = p := by
    intro p
    rw [if_neg (fun h => List.not_mem_nil p.1 h.1)]
  simp only [this, List.map_id]
  exact List.map_id r

theorem rowCoerceDates_updateCell (f : String) (fs hdr : List String) (hf : f ∈ hdr) (r : Row) :
    rowCoerceDates fs hdr (updateCell f coerceDate r) = rowCoerceDates (f :: fs) hdr r := by
  induction r with
  | nil => rfl
  | cons p rest ih =>
    obtain ⟨k, v⟩ := p
    rw [updateCell_cons]
    by_cases hkf : k = f
    · rw [if_pos hkf, rowCoerceDates_cons, rowCoerceDates_cons]
      have hmem : k ∈ f :: fs ∧ k ∈ hdr := ⟨hkf ▸ List.mem_cons_self f fs, hkf ▸ hf⟩
      rw [if_pos hmem]
      by_cases hfs : k ∈ fs ∧ k ∈ hdr
      · rw [if_pos hfs, coerceDate_idem, ih]
      · rw [if_neg hfs, ih]
    · rw [if_neg hkf, rowCoerceDates_cons, rowCoerceDates_cons]
      have hiff : (k ∈ f :: fs ∧ k ∈ hdr) ↔ (k ∈ fs ∧ k ∈ hdr) := by
        constructor
        · rintro ⟨hk, hh⟩
          rcases List.mem_cons.mp hk with h | h
          · exact absurd h hkf
          · exact ⟨h, hh⟩
        · rintro ⟨hk, hh⟩
          exact ⟨List.mem_cons_of_mem f hk, hh⟩
      by_cases hfs : k ∈ fs ∧ k ∈ hdr
      · rw [if_pos hfs, if_pos (hiff.mpr hfs), ih]
      · rw [if_neg hfs, if_neg (fun h => hfs (hiff.mp h)), ih]

theorem rowCoerceDates_not_mem (f : String) (fs hdr : List String) (hf : f ∉ hdr) (r : Row) :
    rowCoerceDates fs hdr r = rowCoerceDates (f :: fs) hdr r := by
  induction r with
  | nil => rfl
  | cons p rest ih =>
    obtain ⟨k, v⟩ := p
    rw [rowCoerceDates_cons, rowCoerceDates_cons]
    have hiff : (k ∈ f :: fs ∧ k ∈ hdr) ↔ (k ∈ fs ∧ k ∈ hdr) := by
      constructor
      · rintro ⟨hk, hh⟩
        rcases List.mem_cons.mp hk with h | h
        · exact absurd (h ▸ hh) hf
        · exact ⟨h, hh⟩
      · rintro ⟨hk, hh⟩
        exact ⟨List.mem_cons_of_mem f hk, hh⟩
    by_cases hfs : k ∈ fs ∧ k ∈ hdr
    · rw [if_pos hfs, if_pos (hiff.mpr hfs), ih]
    · rw [if_neg hfs, if_neg (fun h => hfs (hiff.mp h)), ih]

theorem clean_datetime_fields_spec :
    ∀ (fields : List String) (t : Table),
      (clean_datetime_fields t fields).header = t.header ∧
      (clean_datetime_fields t fields).rows = t.rows.map (rowCoerceDates fields t.header) := by
  intro fields
  induction fields with
  | nil =>
    intro t
    refine ⟨rfl, ?_⟩
    have : ∀ r ∈ t.rows, r = rowCoerceDates [] t.header r :=
      fun r _ => (rowCoerceDates_nil_fields t.header r).symm
    simpa using List.map_congr_left (fun r _ => (rowCoerceDates_nil_fields t.header r).symm) ▸
      (List.map_id t.rows).symm
  | cons f fs ih =>
    intro t
    by_cases hf : f ∈ t.header
    · have step : clean_datetime_fields t (f :: fs)
          = clean_datetime_fields { t with rows := t.rows.map (updateCell f coerceDate) } fs := by
        simp only [clean_datetime_fields, if_pos hf]
      obtain ⟨ihh, ihr⟩ := ih { t with rows := t.rows.map (updateCell f coerceDate) }
      refine ⟨by rw [step, ihh], ?_⟩
      rw [step, ihr]
      simp only [List.map_map]
      exact List.map_congr_left (fun r _ => rowCoerceDates_updateCell f fs t.header hf r)
    · have step : clean_datetime_fields t (f :: fs) = clean_datetime_fields t fs := by
        simp only [clean_datetime_fields, if_neg hf]
      obtain ⟨ihh, ihr⟩ := ih t
      refine ⟨by rw [step, ihh], ?_⟩
      rw [step, ihr]
      exact List.map_congr_left (fun r _ => rowCoerceDates_not_mem f fs t.header hf r)

/-- Claim C6: date normalization parses every cell of each listed field
present in the table (header and row count preserved), sets failed parses
to null, truncates parsed values to calendar dates (each listed-and-
present cell becomes `coerceDate` of itself, a total function — nothing
raises), silently skips listed fields absent from the table, and on the
examples maps `2024-05-01 13:45:00` to the date 2024-05-01 and
`not-a-date` to null. -/
theorem C6_normalize_dates (t : Table) (fields : List String) :
    (clean_datetime_fields t fields).header = t.header ∧
    (clean_datetime_fields t fields).rows.length = t.rows.length ∧
    (clean_datetime_fields t fields).rows = t.rows.map (rowCoerceDates fields t.header) ∧
    (∀ f fs, f ∉ t.header →
      clean_datetime_fields t (f :: fs) = clean_datetime_fields t fs) ∧
    coerceDate (.vstr "2024-05-01 13:45:00".data) = .vdate ⟨2024, 5, 1⟩ ∧
    coerceDate (.vstr "not-a-date".data) = .vnull := by
  obtain ⟨hh, hr⟩ := clean_datetime_fields_spec fields t
  refine ⟨hh, ?_, hr, ?_, by decide, by decide⟩
  · rw [hr, List.length_map]
  · intro f fs hf
    simp only [clean_datetime_fields, if_neg hf]

/-- Claim C6 witness: on the concrete example table, normalizing
`PriceUpdatedDate` (present) while skipping a field that is absent. -/
theorem C6_normalize_dates_witness :
    clean_datetime_fields exC10 ("Missing" :: ["PriceUpdatedDate"])
      = clean_datetime_fields exC10 ["PriceUpdatedDate"] ∧
    (clean_datetime_fields exC10 ["PriceUpdatedDate"]).rows
      = exC10.rows.map (rowCoerceDates ["PriceUpdatedDate"] exC10.header) :=
  ⟨(C6_normalize_dates exC10 []).2.2.2.1 "Missing" ["PriceUpdatedDate"] (by decide),
   (C6_normalize_dates exC10 ["PriceUpdatedDate"]).2.2.1⟩

/-! ### The state-extraction steps (claim C2) -/

theorem dropWhile_idem {α : Type} (p : α → Bool) :
    ∀ l : List α, List.dropWhile p (List.dropWhile p l) = List.dropWhile p l := by
  intro l
  induction l with
  | nil => rfl
  | cons c cs ih =>
    by_cases hc : p c = true
    · rw [List.dropWhile_cons_of_pos hc, ih]
    · rw [List.dropWhile_cons_of_neg hc, List.dropWhile_cons_of_neg hc]

theorem stripTrailing_idem (s : List Char) :
    stripTrailing (stripTrailing s) = stripTrailing s := by
  unfold stripTrailing
  rw [List.reverse_reverse, dropWhile_idem]

theorem pyStrip_stripTrailing (s : List Char) :
    pyStrip (stripTrailing s) = pyStrip s := by
  unfold pyStrip
  rw [stripTrailing_idem]

theorem extract_state_eq (s : List Char) (h1 : stripTrailing s = s) :
    extract_state s
      = if decide (3 ≤ s.length) && (lastN 3 s).all isWordChar then some (lastN 3 s)
        else none := by
  simp only [extract_state, h1]

theorem remove_state_eq (s : List Char) (h1 : stripTrailing s = s) :
    remove_state s
      = if decide (4 ≤ s.length) && (lastN 3 s).all isWordChar
            && isPySpace (s.getD (s.length - 4) ' ') then
          stripTrailing (s.take (s.length - 3))
        else s := by
  simp only [remove_state, h1]

/-- Claim C2 counterexample: for the row with address `12 Main Street`
(postcode and suburb tokens not present), the spec's "final whitespace-
bounded three-letter token" does not exist, so the claim requires a null
`State`; but the code captures the last three word characters of the
longer token `Street` and sets `State = "eet"`. -/
theorem C2_counterexample :
    clean_address exC2
      = Except.ok
          { header := ["Address", "Postcode", "Suburb", "State"],
            rows := [[("Address", .vstr "12 Main Street".data),
                      ("Postcode", .vstr "9999".data),
                      ("Suburb", .vstr "Avalon".data),
                      ("State", .vstr "eet".data)]] } ∧
    spec_finalThreeLetterToken
        (pyStrip (drop_comma (drop_postcode "9999".data "12 Main Street".data))) = none ∧
    extract_state "12 Main Street".data = some "eet".data :=
  ⟨by rfl, by decide, by decide⟩

/-- Claim C2 (amended): on the (both-ends-stripped) address entering the
state steps, `State` is set to the **last three word characters** whenever
the address ends in at least three word characters — even when they are a
fragment of a longer token and regardless of any whitespace before them —
and is null exactly otherwise, in which case the address is unchanged by
these two steps; the three-character suffix (plus the whitespace run
before it) is removed only when it is preceded by at least one whitespace
character, and otherwise the address is unchanged by the removal step. -/
theorem C2_state_steps (s : List Char) (h1 : stripTrailing s = s)
    (h2 : stripLeading s = s) :
    (extract_state s = none ↔ ¬ (3 ≤ s.length ∧ (lastN 3 s).all isWordChar = true)) ∧
    ((3 ≤ s.length ∧ (lastN 3 s).all isWordChar = true) →
      extract_state s = some (lastN 3 s)) ∧
    (extract_state s = none → remove_state s = s ∧ pyStrip (remove_state s) = s) ∧
    ((4 ≤ s.length ∧ (lastN 3 s).all isWordChar = true
        ∧ isPySpace (s.getD (s.length - 4) ' ') = true) →
      pyStrip (remove_state s) = pyStrip (s.take (s.length - 3))) ∧
    (¬ (4 ≤ s.length ∧ (lastN 3 s).all isWordChar = true
        ∧ isPySpace (s.getD (s.length - 4) ' ') = true) →
      remove_state s = s ∧ pyStrip (remove_state s) = s) := by
  have hs : pyStrip s = s := by
    unfold pyStrip
    rw [h1, h2]
  have hext := extract_state_eq s h1
  have hrem := remove_state_eq s h1
  have hc3 : ((decide (3 ≤ s.length) && (lastN 3 s).all isWordChar) = true)
      ↔ (3 ≤ s.length ∧ (lastN 3 s).all isWordChar = true) := by
    simp [Bool.and_eq_true]
  have hc4 : ((decide (4 ≤ s.length) && (lastN 3 s).all isWordChar
        && isPySpace (s.getD (s.length - 4) ' ')) = true)
      ↔ (4 ≤ s.length ∧ (lastN 3 s).all isWordChar = true
          ∧ isPySpace (s.getD (s.length - 4) ' ') = true) := by
    simp [Bool.and_eq_true, and_assoc]
  refine ⟨?_, ?_, ?_, ?_, ?_⟩
  · rw [hext]
    by_cases hb : (decide (3 ≤ s.length) && (lastN 3 s).all isWordChar) = true
    · rw [if_pos hb]
      simp only [reduceCtorEq, false_iff, not_not]
      exact hc3.mp hb
    · rw [if_neg hb]
      simp only [true_iff]
      exact fun h => hb (hc3.mpr h)
  · intro h
    rw [hext, if_pos (hc3.mpr h)]
  · intro hnone
    have hb : ¬ ((decide (3 ≤ s.length) && (lastN 3 s).all isWordChar) = true) := by
      intro hb
      rw [hext, if_pos hb] at hnone
      exact Option.noConfusion hnone
    have hprop := fun h => hb (hc3.mpr h)
    have hb4 : ¬ ((decide (4 ≤ s.length) && (lastN 3 s).all isWordChar
        && isPySpace (s.getD (s.length - 4) ' ')) = true) := by
      intro h4
      obtain ⟨hlen, hword, _⟩ := hc4.mp h4
      exact hprop ⟨by omega, hword⟩
    rw [hrem, if_neg hb4]
    exact ⟨rfl, hs⟩
  · intro h
    rw [hrem, if_pos (hc4.mpr h), pyStrip_stripTrailing]
  · intro h
    rw [hrem, if_neg (fun hb => h (hc4.mp hb))]
    exact ⟨rfl, hs⟩

/-- Claim C2 witness: the amended characterization applied to the concrete
stripped address `12 Main St NSW`. -/
theorem C2_state_steps_witness :
    extract_state "12 Main St NSW".data = some (lastN 3 "12 Main St NSW".data) :=
  (C2_state_steps "12 Main St NSW".data (by decide) (by decide)).2.1 (by decide)

/-! ### mapE lemmas and no-match lemmas (claims C9, C10) -/

theorem mapE_ok_forall₂ {α β : Type} (f : α → Except String β) :
    ∀ (l : List α) (l' : List β), mapE f l = .ok l' →
      List.Forall₂ (fun a b => f a = .ok b) l l' := by
  intro l
  induction l with
  | nil =>
    intro l' h
    simp only [mapE] at h
    cases h
    exact List.Forall₂.nil
  | cons a as ih =>
    intro l' h
    simp only [mapE] at h
    cases hfa : f a with
    | error e => rw [hfa] at h; exact Except.noConfusion h
    | ok b =>
      rw [hfa] at h
      cases hrest : mapE f as with
      | error e => rw [hrest] at h; exact Except.noConfusion h
      | ok bs =>
        rw [hrest] at h
        cases h
        exact List.Forall₂.cons hfa (ih bs hrest)

theorem mapE_ok_of_forall {α β : Type} (f : α → Except String β) :
    ∀ (l : List α), (∀ a ∈ l, ∃ b, f a = .ok b) → ∃ l', mapE f l = .ok l' := by
  intro l
  induction l with
  | nil => intro _; exact ⟨[], rfl⟩
  | cons a as ih =>
    intro h
    obtain ⟨b, hb⟩ := h a (List.mem_cons_self a as)
    obtain ⟨bs, hbs⟩ := ih (fun x hx => h x (List.mem_cons_of_mem a hx))
    refine ⟨b :: bs, ?_⟩
    simp only [mapE, hb, hbs]

theorem drop_postcode_no_match (pc s : List Char)
    (h : endsWithCI pc (stripTrailing s) = false) : drop_postcode pc s = s := by
  have hb : ¬ ((!pc.isEmpty && endsWithCI pc (stripTrailing s)) = true) := by
    simp [h]
  simp only [drop_postcode, if_neg hb]

theorem drop_comma_no_match (s : List Char)
    (h : (stripTrailing s).getLast? ≠ some ',') : drop_comma s = s := by
  simp only [drop_comma, if_neg h]

theorem remove_state_no_match (s : List Char) (h : extract_state s = none) :
    remove_state s = s := by
  have hb : ¬ ((decide (3 ≤ (stripTrailing s).length)
      && (lastN 3 (stripTrailing s)).all isWordChar) = true) := by
    intro hb
    simp only [extract_state, if_pos hb] at h
    exact Option.noConfusion h
  have hb4 : ¬ ((decide (4 ≤ (stripTrailing s).length)
      && (lastN 3 (stripTrailing s)).all isWordChar
      && isPySpace ((stripTrailing s).getD ((stripTrailing s).length - 4) ' ')) = true) := by
    intro h4
    refine hb ?_
    simp only [Bool.and_eq_true, decide_eq_true_eq] at h4 ⊢
    exact ⟨by omega, h4.1.2⟩
  simp only [remove_state, if_neg hb4]

theorem drop_suburb_no_match (sub s : List Char)
    (h : endsWithCI sub (stripTrailing s) = false) : drop_suburb sub s = s := by
  have hb : ¬ (endsWithCI sub (stripTrailing s) = true) := by simp [h]
  simp only [drop_suburb, if_neg hb]

/-- Claim C9 counterexample: a row whose `Address` field is missing (null)
is not passed through — `clean_address` fails on it (line 220's `re.sub`
raises `TypeError`), so the result is not the unchanged table. -/
theorem C9_counterexample : clean_address exC9 ≠ Except.ok exC9 := by
  intro h
  rw [show clean_address exC9
        = Except.error "TypeError: expected string or bytes-like object" from rfl] at h
  exact Except.noConfusion h

/-- Claim C9 (amended): each decomposition step whose expected trailing
substring is absent leaves the address unchanged without error; a *table*
missing any of the three required columns is passed through entirely
unmodified; the decomposer succeeds whenever every `Address` cell is a
string; but a row whose `Address` cell is null makes it raise (an error in
the model) rather than being passed through. -/
theorem C9_edge_cases :
    (∀ t : Table, ¬ ("Address" ∈ t.header ∧ "Postcode" ∈ t.header ∧ "Suburb" ∈ t.header)
      → clean_address t = Except.ok t) ∧
    (∀ pc s, endsWithCI pc (stripTrailing s) = false → drop_postcode pc s = s) ∧
    (∀ s, (stripTrailing s).getLast? ≠ some ',' → drop_comma s = s) ∧
    (∀ s, extract_state s = none → remove_state s = s) ∧
    (∀ sub s, endsWithCI sub (stripTrailing s) = false → drop_suburb sub s = s) ∧
    (∀ t : Table, (∀ r ∈ t.rows, ∃ a, getCell r "Address" = Value.vstr a) →
      ∃ t', clean_address t = Except.ok t') ∧
    clean_address exC9 = Except.error "TypeError: expected string or bytes-like object" := by
  refine ⟨?_, drop_postcode_no_match, drop_comma_no_match, remove_state_no_match,
    drop_suburb_no_match, ?_, rfl⟩
  · intro t h
    simp only [clean_address, if_neg h]
  · intro t h
    by_cases hcols : "Address" ∈ t.header ∧ "Postcode" ∈ t.header ∧ "Suburb" ∈ t.header
    · have hrows : ∀ r ∈ t.rows, ∃ r', cleanRow r = .ok r' := by
        intro r hr
        obtain ⟨a, ha⟩ := h r hr
        cases hcr : cleanRow r with
        | ok r' => exact ⟨r', rfl⟩
        | error e =>
          exfalso
          simp only [cleanRow, ha] at hcr
          exact Except.noConfusion hcr
      obtain ⟨rs, hrs⟩ := mapE_ok_of_forall cleanRow t.rows hrows
      refine ⟨{ header := if "State" ∈ t.header then t.header else t.header ++ ["State"],
                rows := rs }, ?_⟩
      simp only [clean_address, if_pos hcols, hrs]
    · exact ⟨t, by simp only [clean_address, if_neg hcols]⟩

/-- Claim C9 witness: a table without a `Suburb` column passes through
unchanged, and a no-match postcode strip leaves the address alone. -/
theorem C9_edge_cases_witness :
    clean_address { header := ["Address", "Postcode"], rows := [] }
      = Except.ok { header := ["Address", "Postcode"], rows := [] } ∧
    drop_postcode "2000".data "12 Main St".data = "12 Main St".data :=
  ⟨C9_edge_cases.1 _ (by decide), C9_edge_cases.2.1 "2000".data "12 Main St".data (by decide)⟩

/-! ### Per-row success lemmas for the fallible operations -/

theorem titleSuburbRow_ok_getCell (r r' : Row) (h : titleSuburbRow r = .ok r') :
    ∀ k : String, k ≠ "Suburb" → getCell r' k = getCell r k := by
  intro k hk
  unfold titleSuburbRow at h
  cases hc : titleSuburbCell (getCell r "Suburb") with
  | error e => rw [hc] at h; exact Except.noConfusion h
  | ok v =>
    rw [hc] at h
    cases h
    exact getCell_updateCell_ne _ _ _ _ hk

theorem cleanRow_ok_getCell (r r' : Row) (h : cleanRow r = .ok r') :
    ∀ k : String, k ≠ "Address" → k ≠ "State" → getCell r' k = getCell r k := by
  intro k hka hks
  unfold cleanRow at h
  cases hA : getCell r "Address" with
  | vstr a =>
    rw [hA] at h
    cases h
    rw [getCell_setCell_ne _ _ _ _ hks]
    exact getCell_updateCell_ne _ _ _ _ hka
  | vint n => rw [hA] at h; exact Except.noConfusion h
  | vdate d => rw [hA] at h; exact Except.noConfusion h
  | vnull => rw [hA] at h; exact Except.noConfusion h

/-- Claim C10: each normalization operation preserves the row count and
touches only the columns it names — date cleaning rewrites exactly the
listed-and-present fields, suburb title-casing only `Suburb`, state
replacement only `Address`, and address decomposition (when it succeeds)
only `Address` plus the added `State` column, leaving the header otherwise
unchanged. -/
theorem C10_frame_effects (t : Table) (fields : List String) :
    ((clean_datetime_fields t fields).rows.length = t.rows.length ∧
     (clean_datetime_fields t fields).header = t.header ∧
     (clean_datetime_fields t fields).rows = t.rows.map (rowCoerceDates fields t.header) ∧
     (∀ (r : Row) (k : String), k ∉ fields →
        getCell (rowCoerceDates fields t.header r) k = getCell r k)) ∧
    (∀ t', standardize_suburb_names t = Except.ok t' →
      t'.header = t.header ∧ t'.rows.length = t.rows.length ∧
      List.Forall₂ (fun r r' => ∀ k : String, k ≠ "Suburb" → getCell r' k = getCell r k)
        t.rows t'.rows) ∧
    ((standardize_address_state t).header = t.header ∧
     (standardize_address_state t).rows.length = t.rows.length ∧
     (∀ (r : Row) (k : String), k ≠ "Address" →
        getCell (updateCell "Address" replNSWCell r) k = getCell r k)) ∧
    (∀ t', clean_address t = Except.ok t' →
      t'.rows.length = t.rows.length ∧
      List.Forall₂ (fun r r' => ∀ k : String, k ≠ "Address" → k ≠ "State" →
        getCell r' k = getCell r k) t.rows t'.rows ∧
      (("Address" ∈ t.header ∧ "Postcode" ∈ t.header ∧ "Suburb" ∈ t.header) →
        t'.header = (if "State" ∈ t.header then t.header else t.header ++ ["State"])) ∧
      (¬ ("Address" ∈ t.header ∧ "Postcode" ∈ t.header ∧ "Suburb" ∈ t.header) →
        t' = t)) := by
  obtain ⟨hh, hr⟩ := clean_datetime_fields_spec fields t
  refine ⟨⟨by rw [hr, List.length_map], hh, hr, ?_⟩, ?_, ?_, ?_⟩
  · intro r k hk
    exact getCell_rowCoerceDates_ne fields t.header r k hk
  · intro t' h
    by_cases hcol : "Suburb" ∈ t.header
    · cases hm : mapE titleSuburbRow t.rows with
      | error e =>
        rw [show standardize_suburb_names t = Except.error e by
              simp only [standardize_suburb_names, if_pos hcol, hm]] at h
        exact Except.noConfusion h
      | ok rs =>
        rw [show standardize_suburb_names t = Except.ok { t with rows := rs } by
              simp only [standardize_suburb_names, if_pos hcol, hm]] at h
        cases h
        have hf := mapE_ok_forall₂ titleSuburbRow t.rows rs hm
        refine ⟨rfl, (List.Forall₂.length_eq hf).symm, ?_⟩
        exact hf.imp (fun {r r'} hrr => titleSuburbRow_ok_getCell r r' hrr)
    · rw [show standardize_suburb_names t = Except.ok t by
            simp only [standardize_suburb_names, if_neg hcol]] at h
      cases h
      refine ⟨rfl, rfl, ?_⟩
      exact (List.forall₂_same).mpr (fun r _ k _ => rfl)
  · by_cases hcol : "Address" ∈ t.header
    · refine ⟨?_, ?_, ?_⟩
      · simp only [standardize_address_state, if_pos hcol]
      · simp only [standardize_address_state, if_pos hcol, List.length_map]
      · intro r k hk
        exact getCell_updateCell_ne _ _ _ _ hk
    · refine ⟨?_, ?_, ?_⟩
      · simp only [standardize_address_state, if_neg hcol]
      · simp only [standardize_address_state, if_neg hcol]
      · intro r k hk
        exact getCell_updateCell_ne _ _ _ _ hk
  · intro t' h
    by_cases hcols : "Address" ∈ t.header ∧ "Postcode" ∈ t.header ∧ "Suburb" ∈ t.header
    · cases hm : mapE cleanRow t.rows with
      | error e =>
        rw [show clean_address t = Except.error e by
              simp only [clean_address, if_pos hcols, hm]] at h
        exact Except.noConfusion h
      | ok rs =>
        rw [show clean_address t
              = Except.ok { header := if "State" ∈ t.header then t.header
                              else t.header ++ ["State"], rows := rs } by
              simp only [clean_address, if_pos hcols, hm]] at h
        cases h
        have hf := mapE_ok_forall₂ cleanRow t.rows rs hm
        refine ⟨(List.Forall₂.length_eq hf).symm, ?_, fun _ => rfl, fun hn => absurd hcols hn⟩
        exact hf.imp (fun {r r'} hrr => cleanRow_ok_getCell r r' hrr)
    · rw [show clean_address t = Except.ok t by
            simp only [clean_address, if_neg hcols]] at h
      cases h
      refine ⟨rfl, ?_, fun hp => absurd hp hcols, fun _ => rfl⟩
      exact (List.forall₂_same).mpr (fun r _ k _ _ => rfl)

/-- Claim C10 witness: the frame properties applied to the concrete
example table, with the suburb and address operations' success hypotheses
discharged by computation. -/
theorem C10_frame_effects_witness :
    (clean_datetime_fields exC10 ["PriceUpdatedDate"]).rows.length = exC10.rows.length ∧
    ({ header := ["Address", "Postcode", "Suburb", "PriceUpdatedDate"],
       rows := [[("Address", .vstr "4 George St, Sydney NSW 2000".data),
                 ("Postcode", .vstr "2000".data),
                 ("Suburb", .vstr "Sydney".data),
                 ("PriceUpdatedDate", .vstr "2024-05-01 13:45:00".data)]] } : Table).header
      = exC10.header ∧
    ({ header := ["Address", "Postcode", "Suburb", "PriceUpdatedDate", "State"],
       rows := [[("Address", .vstr "4 George St".data),
                 ("Postcode", .vstr "2000".data),
                 ("Suburb", .vstr "sydney".data),
                 ("PriceUpdatedDate", .vstr "2024-05-01 13:45:00".data),
                 ("State", .vstr "NSW".data)]] } : Table).rows.length
      = exC10.rows.length :=
  ⟨(C10_frame_effects exC10 ["PriceUpdatedDate"]).1.1,
   ((C10_frame_effects exC10 []).2.1 _ (by rfl)).1,
   ((C10_frame_effects exC10 []).2.2.2 _ (by rfl)).1⟩

/-! ### Order lemmas for the date sort (claim C8) -/

theorem dateLeB_total (a b : Date) : dateLeB a b = true ∨ dateLeB b a = true := by
  simp only [dateLeB, decide_eq_true_eq]
  omega

theorem dateLeB_trans (a b c : Date) (h1 : dateLeB a b = true) (h2 : dateLeB b c = true) :
    dateLeB a c = true := by
  simp only [dateLeB, decide_eq_true_eq] at h1 h2 ⊢
  omega

theorem optDateLe_total (x y : Option Date) :
    optDateLe x y = true ∨ optDateLe y x = true := by
  cases x with
  | none => cases y with
    | none => exact Or.inl rfl
    | some d => exact Or.inr rfl
  | some a => cases y with
    | none => exact Or.inl rfl
    | some b => exact dateLeB_total a b

theorem optDateLe_trans (x y z : Option Date) (h1 : optDateLe x y = true)
    (h2 : optDateLe y z = true) : optDateLe x z = true := by
  cases x with
  | none => cases y with
    | none => cases z with
      | none => rfl
      | some c => exact Bool.noConfusion h2
    | some b => exact Bool.noConfusion h1
  | some a => cases z with
    | none => cases y <;> rfl
    | some c => cases y with
      | none => exact Bool.noConfusion h2
      | some b => exact dateLeB_trans a b c h1 h2

instance : IsTotal Row rowDateLe :=
  ⟨fun a b => optDateLe_total (rowKey a) (rowKey b)⟩

instance : IsTrans Row rowDateLe :=
  ⟨fun a b c h1 h2 => optDateLe_trans (rowKey a) (rowKey b) (rowKey c) h1 h2⟩

/-- Claim C8 counterexample: the sort performed on the merged result
(line 180, `sort_values` with the default `kind='quicksort'`) guarantees
only an ascending permutation, not stability: on the deduplicated merged
table with two distinct rows of equal `PriceUpdatedDate`, the contract
also admits the output that swaps them — which a stable sort, keeping
the deduplicated order, can never produce.  So the code does not sort
"with a stable sort" as the claim states. -/
theorem C8_counterexample :
    sort_values_contract (dedupFirst (pd_concat [exC8eq]).rows) [eqRowB, eqRowA] ∧
    [eqRowB, eqRowA] ≠ dedupFirst (pd_concat [exC8eq]).rows := by
  constructor
  · exact ⟨by decide, by decide⟩
  · decide

/-- Claim C8 (amended): the merged result is the row-wise concatenation
of the tables on the column union, deduplicated again, and — when the
`PriceUpdatedDate` column exists — sorted ascending by that column
(nulls last), the sort being an ascending permutation as per the
library contract with stability *not* guaranteed; any contract-permitted
output preserves the row count, and merging the two concrete overlapping
tables (one shared row) yields `2 + 2 - 1 = 3` rows in ascending date
order. -/
theorem C8_merge_sort (ts : List Table) :
    (merged_result ts).header = unionHeaders ts ∧
    (merged_result ts).rows.Perm (dedupFirst (pd_concat ts).rows) ∧
    ("PriceUpdatedDate" ∈ unionHeaders ts →
      List.Sorted rowDateLe (merged_result ts).rows ∧
      sort_values_contract (dedupFirst (pd_concat ts).rows) (merged_result ts).rows) ∧
    (∀ rows' : List Row, sort_values_contract (dedupFirst (pd_concat ts).rows) rows' →
      rows'.length = (dedupFirst (pd_concat ts).rows).length) ∧
    ("PriceUpdatedDate" ∉ unionHeaders ts →
      merged_result ts = (remove_duplicates (pd_concat ts)).1) ∧
    merged_result [sortT1, sortT2]
      = { header := ["Price", "PriceUpdatedDate"],
          rows := [mrow 20 ⟨2024, 5, 1⟩, mrow 30 ⟨2024, 5, 2⟩, mrow 10 ⟨2024, 5, 3⟩] } ∧
    (merged_result [sortT1, sortT2]).rows.length
      = sortT1.rows.length + sortT2.rows.length - 1 := by
  refine ⟨?_, ?_, ?_, ?_, ?_, by decide, by decide⟩
  · simp only [merged_result]
    split <;> rfl
  · simp only [merged_result]
    split
    · exact List.perm_insertionSort rowDateLe _
    · exact List.Perm.refl _
  · intro h
    have h' : "PriceUpdatedDate" ∈ (remove_duplicates (pd_concat ts)).1.header := h
    simp only [merged_result, if_pos h']
    exact ⟨List.sorted_insertionSort rowDateLe _,
      List.perm_insertionSort rowDateLe _, List.sorted_insertionSort rowDateLe _⟩
  · intro rows' hc
    exact hc.1.length_eq
  · intro h
    have h' : "PriceUpdatedDate" ∉ (remove_duplicates (pd_concat ts)).1.header := h
    simp only [merged_result, if_neg h']

/-- Claim C8 witness: the merged concrete tables are sorted ascending by
date, and the contract-level row-count preservation applied to a
concrete contract-permitted output. -/
theorem C8_merge_sort_witness :
    List.Sorted rowDateLe (merged_result [sortT1, sortT2]).rows ∧
    (merged_result [sortT1, sortT2]).rows.length
      = (dedupFirst (pd_concat [sortT1, sortT2]).rows).length :=
  ⟨((C8_merge_sort [sortT1, sortT2]).2.2.1 (by decide)).1,
   (C8_merge_sort [sortT1, sortT2]).2.2.2.1 (merged_result [sortT1, sortT2]).rows
     ⟨by decide, by decide⟩⟩
